import Mathlib

/-!
Verification of gammapy's scaled grid-interpolation utility
(`gammapy/utils/interpolation.py`) via a shallow embedding over the reals.

Floating-point arrays are modelled as lists of real numbers; the elementwise
numpy transforms of the three interpolation scales become real functions.
The external interpolation engine (scipy) is modelled separately where a
claim needs it, as noted in the doc comments.
-/

namespace Gammapy

/-- `np.finfo(np.float32).tiny`: the smallest positive normal
single-precision float, `2 ^ (-126)`.  Class attribute `LogScale.tiny`. -/
noncomputable def tiny : ℝ := 1 / 2 ^ 126

theorem tiny_pos : 0 < tiny := by
  unfold tiny; positivity

theorem tiny_lt_one : tiny < 1 := by
  unfold tiny
  rw [div_lt_one (by positivity)]
  calc (1 : ℝ) < 2 := one_lt_two
    _ ≤ 2 ^ 126 := le_self_pow₀ (by norm_num) (by norm_num)

/-- The three scale variants selectable by `interpolation_scale`. -/
inductive ScaleKind where
  | lin
  | log
  | sqrt
deriving DecidableEq

/-- `LinearScale._scale`: identity. -/
def LinearScale.scaleFn (x : ℝ) : ℝ := x

/-- `LinearScale._inverse`: identity. -/
def LinearScale.inverseFn (y : ℝ) : ℝ := y

/-- `LogScale._scale`: `np.log(np.clip(values, tiny, np.inf))`, elementwise.
`np.clip(x, tiny, inf)` is `max x tiny`. -/
noncomputable def LogScale.scaleFn (x : ℝ) : ℝ := Real.log (max x tiny)

/-- `LogScale._inverse`, elementwise: `output = np.exp(values)`, and entries
with `abs(output) - tiny <= tiny` are set to `0.0`. -/
noncomputable def LogScale.inverseFn (y : ℝ) : ℝ :=
  if |Real.exp y| - tiny ≤ tiny then 0 else Real.exp y

/-- `SqrtScale._scale`: `sign = np.sign(values); sign * np.sqrt(sign * values)`. -/
noncomputable def SqrtScale.scaleFn (x : ℝ) : ℝ :=
  Real.sign x * Real.sqrt (Real.sign x * x)

/-- `SqrtScale._inverse`: `np.power(values, 2)`. -/
def SqrtScale.inverseFn (y : ℝ) : ℝ := y ^ 2

/-- Forward transform of a scale variant (`_scale`). -/
noncomputable def ScaleKind.fwd : ScaleKind → ℝ → ℝ
  | .lin => LinearScale.scaleFn
  | .log => LogScale.scaleFn
  | .sqrt => SqrtScale.scaleFn

/-- Backward transform of a scale variant (`_inverse`), elementwise. -/
noncomputable def ScaleKind.bwd : ScaleKind → ℝ → ℝ
  | .lin => LinearScale.inverseFn
  | .log => LogScale.inverseFn
  | .sqrt => SqrtScale.inverseFn

/-- `LogScale._inverse` on a whole array: `output = np.exp(values)`; if any
entry satisfies `abs(output) - tiny <= tiny`, those entries are set to `0.0`
and a precision-limit warning is emitted (second component `true`). -/
noncomputable def LogScale.inverseList (ys : List ℝ) : List ℝ × Bool :=
  let output := ys.map Real.exp
  if output.any (fun o => decide (|o| - tiny ≤ tiny)) then
    (output.map (fun o => if |o| - tiny ≤ tiny then 0 else o), true)
  else
    (output, false)

/-- `interpolation_scale(scale)`: dispatch on the scale name; unknown names
raise `ValueError(f"Not a valid value scaling mode: '{scale}'.")`. -/
def interpolation_scale (scale : String) : Except String ScaleKind :=
  if scale = "lin" ∨ scale = "linear" then .ok .lin
  else if scale = "log" then .ok .log
  else if scale = "sqrt" then .ok .sqrt
  else .error ("Not a valid value scaling mode: '" ++ scale ++ "'.")

/-- Default `points_scale` when `None` is given: `["lin"] * len(points)`. -/
def default_points_scale (n : Nat) : List String := List.replicate n "lin"

/-- Scale resolution performed by `ScaledRegularGridInterpolator.__init__`:
`[interpolation_scale(scale) for scale in points_scale]` followed by
`interpolation_scale(values_scale)`; the first failing name aborts
construction with its error. -/
def resolve_scales (points_scale : List String) (values_scale : String) :
    Except String (List ScaleKind × ScaleKind) := do
  let ps ← points_scale.mapM interpolation_scale
  let vs ← interpolation_scale values_scale
  return (ps, vs)

/-- One-sided / centered finite difference of `np.gradient(f)` (unit spacing,
default `edge_order=1`) at index `i` of an array of length `n`:
`f[1]-f[0]` at the left edge, `f[n-1]-f[n-2]` at the right edge,
`(f[i+1]-f[i-1])/2` in the interior. -/
noncomputable def gradAt (f : List ℝ) (n i : Nat) : ℝ :=
  if i = 0 then f.getD 1 0 - f.getD 0 0
  else if i = n - 1 then f.getD (n - 1) 0 - f.getD (n - 2) 0
  else (f.getD (i + 1) 0 - f.getD (i - 1) 0) / 2

/-- `np.gradient(f)` for a 1-D array; `np.gradient` raises for arrays with
fewer than two elements (modelled as `none`). -/
noncomputable def np_gradient (f : List ℝ) : Option (List ℝ) :=
  if f.length < 2 then none
  else some ((List.range f.length).map (gradAt f f.length))

/-- The constructor arguments `interpolate_likelihood_profile` passes to
`ScaledRegularGridInterpolator`, with `points_scale` resolved to the default
the constructor applies when it is left as `None`. -/
structure SRGIConfig where
  points : List (List ℝ)
  points_scale : List String
  values : List ℝ
  values_scale : String

/-- `interpolate_likelihood_profile(value_scan, dloglike_scan, interp_scale)`:
`sign = np.sign(np.gradient(dloglike_scan))`, then construct
`ScaledRegularGridInterpolator(points=(value_scan,), values=sign * dloglike_scan,
values_scale=interp_scale)`.  The default for `interp_scale` is `"sqrt"`;
`points_scale` is left `None`, which the constructor resolves to all-`"lin"`. -/
noncomputable def interpolate_likelihood_profile (value_scan dloglike_scan : List ℝ)
    (interp_scale : String) : Option SRGIConfig :=
  match np_gradient dloglike_scan with
  | none => none
  | some g =>
      some { points := [value_scan]
             points_scale := default_points_scale 1
             values := List.zipWith (fun gi di => Real.sign gi * di) g dloglike_scan
             values_scale := interp_scale }

/-- `self.scale.inverse` applied to the raw engine output array, per variant
(the unit-free numeric part; `LogScale` includes the near-zero snapping). -/
noncomputable def scale_inverse_list (k : ScaleKind) (ys : List ℝ) : List ℝ :=
  match k with
  | .lin => ys
  | .log => (LogScale.inverseList ys).1
  | .sqrt => ys.map SqrtScale.inverseFn

/-- Tail of `ScaledRegularGridInterpolator.__call__` after the underlying
engine has produced the raw interpolated array `raw` (the call
`self._interpolate(points_interp, method, **kwargs)` is external scipy code,
so its output is taken as an arbitrary list): inverse value scaling, then
`np.clip(values, 0, np.inf)` when `clip` is true. -/
noncomputable def SRGI_call (vscale : ScaleKind) (raw : List ℝ) (clip : Bool) :
    List ℝ :=
  let values := scale_inverse_list vscale raw
  if clip then values.map (fun x => max x 0) else values

/-- Linear interpolation on the segment from `(x0, y0)` to `(x1, y1)`. -/
noncomputable def interpSeg (x0 y0 x1 y1 x : ℝ) : ℝ :=
  y0 + (y1 - y0) * (x - x0) / (x1 - x0)

/-- Modelled from the spec: the underlying interpolation engine (external
scipy code, not part of this repository) performing 1-D piecewise-linear
interpolation over a grid of `(coordinate, value)` pairs, with linear
extrapolation beyond the first and last nodes. -/
noncomputable def linInterp1d : List (ℝ × ℝ) → ℝ → ℝ
  | [], _ => 0
  | [(_, y0)], _ => y0
  | (x0, y0) :: (x1, y1) :: rest, x =>
      if x ≤ x1 then interpSeg x0 y0 x1 y1 x else linInterp1d ((x1, y1) :: rest) x

/-- End-to-end query of a `ScaledRegularGridInterpolator` built over a single
1-D axis (`axis=None` path with one point array): forward-scale the grid
coordinates and values at construction, forward-scale the query coordinate,
linearly interpolate in scaled space, apply the value scale inverse, and clip
at zero when requested. -/
noncomputable def srgi_query1d (pts vals : List ℝ) (pscale vscale : ScaleKind)
    (x : ℝ) (clip : Bool) : ℝ :=
  let grid := (pts.map pscale.fwd).zip (vals.map vscale.fwd)
  let raw := linInterp1d grid (pscale.fwd x)
  let v := vscale.bwd raw
  if clip then max v 0 else v

/-- `fill_value` values meaningful to the underlying engine: scipy's default
`nan`, `None` (which requests extrapolation), or a constant. -/
inductive FillValue where
  | nanDefault
  | extrapolateNone
  | const (c : ℝ)

/-- The two engine keyword options `__init__` touches; `none` means the
caller did not pass the option. -/
structure EngineKwargs where
  bounds_error : Option Bool := none
  fill_value : Option FillValue := none

/-- `dict.setdefault`: keep an explicitly passed value, else insert the
default. -/
def setdefault {α : Type} (o : Option α) (d : α) : Option α :=
  match o with
  | some v => some v
  | none => some d

/-- The kwargs dict after `__init__`: when `extrapolate` is true it runs
`kwargs.setdefault("bounds_error", False)` and
`kwargs.setdefault("fill_value", None)`; otherwise kwargs are untouched. -/
def resolved_kwargs (extrapolate : Bool) (kw : EngineKwargs) : EngineKwargs :=
  if extrapolate then
    { bounds_error := setdefault kw.bounds_error false
      fill_value := setdefault kw.fill_value FillValue.extrapolateNone }
  else kw

/-- Out-of-bounds outcomes of the underlying engine. -/
inductive OOBOutcome where
  | raiseError
  | extrapolated
  | filled (f : FillValue)

/-- Modelled from the spec: out-of-bounds behavior of the underlying engine
(external scipy `RegularGridInterpolator`, not part of this repository): with
`bounds_error` true (its default when the option is absent) an out-of-bounds
query raises; with `bounds_error` false and `fill_value=None` it is linearly
extrapolated; otherwise the fill value is used. -/
def engine_oob (kw : EngineKwargs) : OOBOutcome :=
  match kw.bounds_error.getD true with
  | true => .raiseError
  | false =>
      match kw.fill_value.getD .nanDefault with
      | .extrapolateNone => .extrapolated
      | f => .filled f

/-- A numpy array or an astropy quantity.  A physical unit is modelled by its
conversion factor to a fixed base unit, so `to_value` into unit `u` of a
quantity with magnitude `x` and unit `xu` is `x * (xu / u)`. -/
inductive PyValue where
  | plain (x : ℝ)
  | qty (x : ℝ) (unit : ℝ)

/-- `InterpolationScale.__call__`: if a unit was recorded, convert the input
to that unit (`values.to_value(self._unit)`) and transform; a plain array in
that state has no `to_value`, raising `AttributeError`.  Otherwise a
unit-bearing input records its unit and is transformed by magnitude, and a
plain input is transformed directly.  Returns the updated recorded unit and
the scaled magnitudes. -/
noncomputable def scale_call (k : ScaleKind) (st : Option ℝ) (v : PyValue) :
    Except String (Option ℝ × ℝ) :=
  match st, v with
  | some u, .qty x xu => .ok (some u, k.fwd (x * (xu / u)))
  | some _, .plain _ => .error "AttributeError"
  | none, .qty x xu => .ok (some xu, k.fwd x)
  | none, .plain x => .ok (none, k.fwd x)

/-- `InterpolationScale.inverse`: apply the variant inverse; if a unit was
recorded, re-wrap the result as a quantity in that unit, else return plain
numbers. -/
noncomputable def scale_inverse_call (k : ScaleKind) (st : Option ℝ) (y : ℝ) :
    PyValue :=
  match st with
  | some u => .qty (k.bwd y) u
  | none => .plain (k.bwd y)

/-- The state a `ScaledRegularGridInterpolator` constructed in axis mode
keeps for querying: scaled grid coordinates, scaled values, and the two
scales. -/
structure AxisInterp where
  xs : List ℝ
  ys : List ℝ
  pscale : ScaleKind
  vscale : ScaleKind

/-- Modelled from the spec: the underlying 1-D engine (external scipy
`interp1d`, not part of this repository) as a function of its construction
arrays and the query coordinate only. -/
noncomputable def interp1d_engine (xs ys : List ℝ) (q : ℝ) : ℝ :=
  linInterp1d (xs.zip ys) q

/-- `__init__` with `axis` set: builds
`scipy.interpolate.interp1d(points_scaled[0], values_scaled, axis=axis)`.
The `extrapolate` flag only edits the kwargs dict, and neither it nor the
engine kwargs are forwarded to `interp1d`, so they do not enter the stored
state. -/
noncomputable def mk_axis (pts vals : List ℝ) (pscale vscale : ScaleKind)
    (extrapolate : Bool) (kwargs : EngineKwargs) (axis : Nat) : AxisInterp :=
  { xs := pts.map pscale.fwd
    ys := vals.map vscale.fwd
    pscale := pscale
    vscale := vscale }

/-- `__call__` in axis mode: `values = self._interpolate(points[0])` — the
`method` argument and query kwargs are not forwarded — then inverse value
scaling and optional clipping. -/
noncomputable def call_axis (s : AxisInterp) (q : ℝ) (method : String)
    (kwargs : EngineKwargs) (clip : Bool) : ℝ :=
  let y := interp1d_engine s.xs s.ys (s.pscale.fwd q)
  let v := s.vscale.bwd y
  if clip then max v 0 else v

theorem sqrt_bwd_fwd (x : ℝ) : SqrtScale.inverseFn (SqrtScale.scaleFn x) = |x| := by
  unfold SqrtScale.inverseFn SqrtScale.scaleFn
  rcases lt_trichotomy x 0 with h | h | h
  · rw [Real.sign_of_neg h, abs_of_neg h, mul_pow,
      Real.sq_sqrt (by linarith : (0:ℝ) ≤ -1 * x)]
    ring
  · subst h
    simp [Real.sign_zero]
  · rw [Real.sign_of_pos h, abs_of_pos h, mul_pow,
      Real.sq_sqrt (by linarith : (0:ℝ) ≤ 1 * x)]
    ring

theorem log_bwd_fwd_exact (x : ℝ) (h : 2 * tiny < x) :
    LogScale.inverseFn (LogScale.scaleFn x) = x := by
  have ht := tiny_pos
  have hx : 0 < x := by linarith
  unfold LogScale.inverseFn LogScale.scaleFn
  rw [max_eq_left (by linarith), Real.exp_log hx, abs_of_pos hx,
    if_neg (not_le.mpr (by linarith))]

theorem log_bwd_fwd_nearzero (x : ℝ) (h : |x| ≤ tiny) :
    LogScale.inverseFn (LogScale.scaleFn x) = 0 := by
  have ht := tiny_pos
  have hx : x ≤ tiny := le_trans (le_abs_self x) h
  unfold LogScale.inverseFn LogScale.scaleFn
  rw [max_eq_right hx, Real.exp_log ht, abs_of_pos ht, if_pos (by linarith)]

/-- Claim C1, as stated, fails on the sqrt variant: `backward(forward(-1))`
is `1`, not `-1` — `_inverse` squares its argument, so the sign of a negative
input is not preserved through the round trip. -/
theorem C1_sqrt_roundtrip_counterexample :
    ScaleKind.sqrt.bwd (ScaleKind.sqrt.fwd (-1)) = 1 ∧ (1 : ℝ) ≠ -1 := by
  constructor
  · show SqrtScale.inverseFn (SqrtScale.scaleFn (-1)) = 1
    rw [sqrt_bwd_fwd]
    norm_num
  · norm_num

/-- Claim C1 (amended): the linear variant round-trips exactly for every
input; the sqrt variant round-trips to `|x|` (exact for nonnegative inputs,
sign discarded for negative ones); the log variant round-trips exactly for
inputs above `2 * tiny` and maps inputs within `tiny` of zero to exactly
zero. -/
theorem C1_roundtrip_amended :
    (∀ x : ℝ, ScaleKind.lin.bwd (ScaleKind.lin.fwd x) = x) ∧
    (∀ x : ℝ, ScaleKind.sqrt.bwd (ScaleKind.sqrt.fwd x) = |x|) ∧
    (∀ x : ℝ, 2 * tiny < x → ScaleKind.log.bwd (ScaleKind.log.fwd x) = x) ∧
    (∀ x : ℝ, |x| ≤ tiny → ScaleKind.log.bwd (ScaleKind.log.fwd x) = 0) :=
  ⟨fun _ => rfl, fun x => sqrt_bwd_fwd x,
   fun x h => log_bwd_fwd_exact x h, fun x h => log_bwd_fwd_nearzero x h⟩

theorem two_tiny_lt_one : 2 * tiny < 1 := by
  unfold tiny
  norm_num

/-- Witness for C1: the amended round trips evaluated at `x = 1` (log) and
`x = 4` (sqrt). -/
theorem C1_roundtrip_amended_witness :
    ScaleKind.log.bwd (ScaleKind.log.fwd 1) = 1 ∧
    ScaleKind.sqrt.bwd (ScaleKind.sqrt.fwd 4) = |(4 : ℝ)| :=
  ⟨C1_roundtrip_amended.2.2.1 1 two_tiny_lt_one, C1_roundtrip_amended.2.1 4⟩

theorem LogScale.inverseList_fst (ys : List ℝ) :
    (LogScale.inverseList ys).1 = ys.map LogScale.inverseFn := by
  unfold LogScale.inverseList LogScale.inverseFn
  by_cases h : (ys.map Real.exp).any (fun o => decide (|o| - tiny ≤ tiny))
  · rw [if_pos h, List.map_map]
    rfl
  · rw [if_neg h]
    rw [List.map_congr_left]
    intro y hy
    rw [if_neg]
    intro hc
    exact h (List.any_eq_true.mpr
      ⟨Real.exp y, List.mem_map_of_mem Real.exp hy, by simpa using hc⟩)

theorem LogScale.inverseList_snd (ys : List ℝ) :
    (LogScale.inverseList ys).2 = true ↔ ∃ y ∈ ys, |Real.exp y| ≤ 2 * tiny := by
  unfold LogScale.inverseList
  by_cases h : (ys.map Real.exp).any (fun o => decide (|o| - tiny ≤ tiny))
  · rw [if_pos h]
    simp only [List.any_eq_true, List.mem_map, decide_eq_true_eq] at h
    obtain ⟨o, ⟨y, hy, rfl⟩, hc⟩ := h
    exact iff_of_true rfl ⟨y, hy, by linarith⟩
  · rw [if_neg h]
    simp only [List.any_eq_true, List.mem_map, decide_eq_true_eq] at h
    push_neg at h
    constructor
    · intro hfalse
      exact absurd hfalse (by simp)
    · rintro ⟨y, hy, hc⟩
      have := h (Real.exp y) ⟨y, hy, rfl⟩
      linarith

/-- Claim C2, as stated, fails on the snapping threshold: with
`y = log(2 * tiny)`, `exp(y) = 2 * tiny` has magnitude strictly greater than
`tiny` (farther than one `tiny` from zero), so per the claim it should be
returned unchanged, yet `LogScale._inverse` forces it to zero because its
condition is `abs(output) - tiny <= tiny`, i.e. magnitude up to `2 * tiny`. -/
theorem C2_log_threshold_counterexample :
    tiny < |Real.exp (Real.log (2 * tiny))| ∧
    ScaleKind.log.bwd (Real.log (2 * tiny)) = 0 ∧
    Real.exp (Real.log (2 * tiny)) ≠ 0 := by
  have ht := tiny_pos
  have h2 : (0 : ℝ) < 2 * tiny := by linarith
  have he : Real.exp (Real.log (2 * tiny)) = 2 * tiny := Real.exp_log h2
  refine ⟨?_, ?_, ?_⟩
  · rw [he, abs_of_pos h2]
    linarith
  · show LogScale.inverseFn (Real.log (2 * tiny)) = 0
    unfold LogScale.inverseFn
    rw [he, abs_of_pos h2, if_pos (by linarith)]
  · rw [he]
    linarith

/-- Claim C2 (amended): `LogScale._inverse` applies `exp` elementwise and
forces to exactly zero every result whose magnitude is at most `2 * tiny`
(one `tiny` above the forward clip floor), emitting a non-fatal warning
exactly when some element is in that range; results of magnitude above
`2 * tiny` are returned as `exp(y)` unchanged, and the function is total
(never an exception). -/
theorem C2_log_backward_amended (ys : List ℝ) :
    (LogScale.inverseList ys).1 =
      ys.map (fun y => if |Real.exp y| ≤ 2 * tiny then 0 else Real.exp y) ∧
    ((LogScale.inverseList ys).2 = true ↔ ∃ y ∈ ys, |Real.exp y| ≤ 2 * tiny) := by
  constructor
  · rw [LogScale.inverseList_fst, List.map_congr_left]
    intro y _
    unfold LogScale.inverseFn
    by_cases hc : |Real.exp y| ≤ 2 * tiny
    · rw [if_pos (by linarith), if_pos hc]
    · rw [if_neg (fun hcc => hc (by linarith)), if_neg hc]
  · exact LogScale.inverseList_snd ys

/-- Witness for C2: the amended statement evaluated on the empty array. -/
theorem C2_log_backward_amended_witness :
    (LogScale.inverseList []).1 =
      List.map (fun y => if |Real.exp y| ≤ 2 * tiny then 0 else Real.exp y) [] ∧
    ((LogScale.inverseList []).2 = true ↔ ∃ y ∈ ([] : List ℝ), |Real.exp y| ≤ 2 * tiny) :=
  C2_log_backward_amended []

theorem mapM_default_points_scale (n : Nat) :
    (default_points_scale n).mapM interpolation_scale =
      Except.ok (List.replicate n ScaleKind.lin) := by
  induction n with
  | zero => rfl
  | succ k ih =>
      unfold default_points_scale at ih ⊢
      rw [List.replicate_succ, List.replicate_succ, List.mapM_cons, ih]
      rfl

/-- Claim C3: `interpolation_scale` maps `"lin"`/`"linear"` to the linear
variant, `"log"` to log, `"sqrt"` to sqrt; any other name fails with an
invalid-configuration error whose message contains the offending string, and
constructor-side scale resolution propagates that error so no interpolator
state is built. -/
theorem C3_scale_name_dispatch (s : String)
    (h : s ≠ "lin" ∧ s ≠ "linear" ∧ s ≠ "log" ∧ s ≠ "sqrt") :
    interpolation_scale "lin" = .ok .lin ∧
    interpolation_scale "linear" = .ok .lin ∧
    interpolation_scale "log" = .ok .log ∧
    interpolation_scale "sqrt" = .ok .sqrt ∧
    (∃ a b, interpolation_scale s = .error (a ++ s ++ b)) ∧
    (∀ n, resolve_scales (default_points_scale n) s =
      .error ("Not a valid value scaling mode: '" ++ s ++ "'.")) := by
  obtain ⟨h1, h2, h3, h4⟩ := h
  have herr : interpolation_scale s =
      .error ("Not a valid value scaling mode: '" ++ s ++ "'.") := by
    unfold interpolation_scale
    rw [if_neg (by simp [h1, h2]), if_neg h3, if_neg h4]
  refine ⟨rfl, rfl, rfl, rfl, ?_, ?_⟩
  · exact ⟨"Not a valid value scaling mode: '", "'.", herr⟩
  · intro n
    unfold resolve_scales
    rw [mapM_default_points_scale]
    show (interpolation_scale s).bind _ = _
    rw [herr]
    rfl

/-- Witness for C3: the dispatch applied to the invalid name `"cubic"`. -/
theorem C3_scale_name_dispatch_witness :
    ∃ a b, interpolation_scale "cubic" = .error (a ++ "cubic" ++ b) :=
  (C3_scale_name_dispatch "cubic" (by refine ⟨?_, ?_, ?_, ?_⟩ <;> decide)).2.2.2.2.1

/-- Claim C4: for scans long enough for `np.gradient` (at least two samples),
`interpolate_likelihood_profile` constructs the interpolator with
`points = (value_scan,)`, the all-linear default `points_scale`,
`values = sign(gradient(dloglike_scan)) * dloglike_scan` where the gradient
is the centered/forward finite difference of the same length as the scan,
and `values_scale = interp_scale`. -/
theorem C4_likelihood_profile_construction (value_scan dloglike_scan : List ℝ)
    (interp_scale : String) (h2 : 2 ≤ dloglike_scan.length)
    (hlen : value_scan.length = dloglike_scan.length) :
    ∃ g, np_gradient dloglike_scan = some g ∧
      g.length = dloglike_scan.length ∧
      interpolate_likelihood_profile value_scan dloglike_scan interp_scale =
        some { points := [value_scan]
               points_scale := ["lin"]
               values := List.zipWith (fun gi di => Real.sign gi * di) g dloglike_scan
               values_scale := interp_scale } := by
  have hng : np_gradient dloglike_scan =
      some ((List.range dloglike_scan.length).map
        (gradAt dloglike_scan dloglike_scan.length)) := by
    unfold np_gradient
    rw [if_neg (by omega)]
  refine ⟨_, hng, ?_, ?_⟩
  · rw [List.length_map, List.length_range]
  · unfold interpolate_likelihood_profile
    rw [hng]
    rfl

/-- Witness for C4: the construction evaluated on
`value_scan = [1, 2, 3]`, `dloglike_scan = [4, 1, 0]`. -/
theorem C4_likelihood_profile_construction_witness :
    ∃ g, np_gradient [(4 : ℝ), 1, 0] = some g ∧
      g.length = List.length [(4 : ℝ), 1, 0] ∧
      interpolate_likelihood_profile [(1 : ℝ), 2, 3] [(4 : ℝ), 1, 0] "sqrt" =
        some { points := [[(1 : ℝ), 2, 3]]
               points_scale := ["lin"]
               values := List.zipWith (fun gi di => Real.sign gi * di) g [(4 : ℝ), 1, 0]
               values_scale := "sqrt" } :=
  C4_likelihood_profile_construction [1, 2, 3] [4, 1, 0] "sqrt" (by decide) rfl

/-- Claim C5: with `clip=True` every returned element is nonnegative after
inverse value scaling; with `clip=False` the inverse-scaled values pass
through unmodified. -/
theorem C5_clip_behavior (vscale : ScaleKind) (raw : List ℝ) :
    (∀ v ∈ SRGI_call vscale raw true, 0 ≤ v) ∧
    SRGI_call vscale raw false = scale_inverse_list vscale raw := by
  constructor
  · intro v hv
    unfold SRGI_call at hv
    rw [if_pos rfl] at hv
    obtain ⟨x, _, rfl⟩ := List.mem_map.mp hv
    exact le_max_right x 0
  · unfold SRGI_call
    rw [if_neg (by simp)]

/-- Witness for C5: a raw interpolated value of `-1` under the linear value
scale is clipped to `0` when `clip=True` and passes through when
`clip=False`. -/
theorem C5_clip_behavior_witness :
    (0 : ℝ) ≤ 0 ∧ SRGI_call .lin [-1] false = scale_inverse_list .lin [-1] :=
  ⟨(C5_clip_behavior .lin [-1]).1 0
      (by
        show (0 : ℝ) ∈ SRGI_call .lin [-1] true
        unfold SRGI_call scale_inverse_list
        rw [if_pos rfl]
        simp),
   (C5_clip_behavior .lin [-1]).2⟩

/-- Claim C6: with `extrapolate=True` and no explicit bounds options the
underlying engine receives `bounds_error=False` and `fill_value=None`, so
out-of-bounds queries are extrapolated; explicitly passed options survive
`setdefault` unchanged; with `extrapolate=False` and no overrides the engine
keeps its `bounds_error=True` default and an out-of-bounds query raises. -/
theorem C6_extrapolate_defaults (e : Bool) (b : Bool) (f : FillValue) :
    (resolved_kwargs true {}).bounds_error = some false ∧
    (resolved_kwargs true {}).fill_value = some FillValue.extrapolateNone ∧
    engine_oob (resolved_kwargs true {}) = .extrapolated ∧
    (resolved_kwargs e { bounds_error := some b, fill_value := some f }).bounds_error
      = some b ∧
    (resolved_kwargs e { bounds_error := some b, fill_value := some f }).fill_value
      = some f ∧
    engine_oob (resolved_kwargs false {}) = .raiseError := by
  refine ⟨rfl, rfl, rfl, ?_, ?_, rfl⟩ <;> cases e <;> rfl

/-- Witness for C6: the defaults with explicit options `bounds_error=True`,
`fill_value=nan` under `extrapolate=True`. -/
theorem C6_extrapolate_defaults_witness :
    (resolved_kwargs true
        { bounds_error := some true, fill_value := some FillValue.nanDefault }).bounds_error
      = some true :=
  (C6_extrapolate_defaults true true FillValue.nanDefault).2.2.2.1

theorem linInterp1d_cons (x0 y0 x1 y1 : ℝ) (rest : List (ℝ × ℝ)) (x : ℝ) :
    linInterp1d ((x0, y0) :: (x1, y1) :: rest) x =
      if x ≤ x1 then interpSeg x0 y0 x1 y1 x else linInterp1d ((x1, y1) :: rest) x := rfl

theorem log_scaleFn_of_ge (x : ℝ) (h : tiny ≤ x) :
    LogScale.scaleFn x = Real.log x := by
  unfold LogScale.scaleFn
  rw [max_eq_left h]

theorem log_bwd_of_large (y : ℝ) (h : 2 * tiny < Real.exp y) :
    ScaleKind.log.bwd y = Real.exp y := by
  show LogScale.inverseFn y = Real.exp y
  unfold LogScale.inverseFn
  rw [abs_of_pos (Real.exp_pos y), if_neg (not_le.mpr (by linarith))]

theorem srgi_query1d_clip (pts vals : List ℝ) (ps vs : ScaleKind) (x : ℝ) :
    srgi_query1d pts vals ps vs x true =
      max (vs.bwd (linInterp1d ((pts.map ps.fwd).zip (vals.map vs.fwd)) (ps.fwd x))) 0 :=
  rfl

theorem srgi_query1d_noclip (pts vals : List ℝ) (ps vs : ScaleKind) (x : ℝ) :
    srgi_query1d pts vals ps vs x false =
      vs.bwd (linInterp1d ((pts.map ps.fwd).zip (vals.map vs.fwd)) (ps.fwd x)) :=
  rfl

/-- Claim C7: over points `[1,2,3,4]` with values `[10,100,1000,10000]` and a
log value scale, querying at `2.0` returns `100` exactly (well within 1%),
and querying at `2.5` returns a value strictly between `100` and `1000`. -/
theorem C7_end_to_end :
    |srgi_query1d [1, 2, 3, 4] [10, 100, 1000, 10000] .lin .log 2 true - 100| ≤ 1 ∧
    100 < srgi_query1d [1, 2, 3, 4] [10, 100, 1000, 10000] .lin .log (5 / 2) true ∧
    srgi_query1d [1, 2, 3, 4] [10, 100, 1000, 10000] .lin .log (5 / 2) true < 1000 := by
  have ht := tiny_pos
  have ht1 := tiny_lt_one
  have ht2 := two_tiny_lt_one
  have h10 : tiny ≤ (10 : ℝ) := by linarith
  have h100 : tiny ≤ (100 : ℝ) := by linarith
  have h1000 : tiny ≤ (1000 : ℝ) := by linarith
  have h10000 : tiny ≤ (10000 : ℝ) := by linarith
  have hgrid :
      (([1, 2, 3, 4] : List ℝ).map (ScaleKind.lin.fwd)).zip
        (([10, 100, 1000, 10000] : List ℝ).map (ScaleKind.log.fwd)) =
      [(1, Real.log 10), (2, Real.log 100), (3, Real.log 1000), (4, Real.log 10000)] := by
    simp [ScaleKind.fwd, LinearScale.scaleFn, log_scaleFn_of_ge 10 h10,
      log_scaleFn_of_ge 100 h100, log_scaleFn_of_ge 1000 h1000,
      log_scaleFn_of_ge 10000 h10000]
  have hlin2 :
      linInterp1d [(1, Real.log 10), (2, Real.log 100), (3, Real.log 1000),
        (4, Real.log 10000)] 2 = Real.log 100 := by
    rw [linInterp1d_cons, if_pos (by norm_num : (2 : ℝ) ≤ 2)]
    unfold interpSeg
    ring_nf
  have hlin25 :
      linInterp1d [(1, Real.log 10), (2, Real.log 100), (3, Real.log 1000),
        (4, Real.log 10000)] (5 / 2) =
      Real.log 100 + (Real.log 1000 - Real.log 100) / 2 := by
    rw [linInterp1d_cons, if_neg (by norm_num : ¬((5 : ℝ) / 2 ≤ 2)),
      linInterp1d_cons, if_pos (by norm_num : (5 : ℝ) / 2 ≤ 3)]
    unfold interpSeg
    ring_nf
  have he100 : Real.exp (Real.log 100) = 100 := Real.exp_log (by norm_num)
  have he1000 : Real.exp (Real.log 1000) = 1000 := Real.exp_log (by norm_num)
  have hq2 : srgi_query1d [1, 2, 3, 4] [10, 100, 1000, 10000] .lin .log 2 true = 100 := by
    rw [srgi_query1d_clip, hgrid]
    have hfwd : ScaleKind.lin.fwd 2 = 2 := rfl
    rw [hfwd, hlin2, log_bwd_of_large (Real.log 100) (by rw [he100]; linarith), he100]
    exact max_eq_left (by norm_num)
  set m := Real.log 100 + (Real.log 1000 - Real.log 100) / 2 with hm
  have hL : Real.log 100 < Real.log 1000 := Real.log_lt_log (by norm_num) (by norm_num)
  have hm1 : Real.log 100 < m := by rw [hm]; linarith
  have hm2 : m < Real.log 1000 := by rw [hm]; linarith
  have hexp1 : 100 < Real.exp m := by
    calc (100 : ℝ) = Real.exp (Real.log 100) := he100.symm
      _ < Real.exp m := Real.exp_lt_exp.mpr hm1
  have hexp2 : Real.exp m < 1000 := by
    calc Real.exp m < Real.exp (Real.log 1000) := Real.exp_lt_exp.mpr hm2
      _ = 1000 := he1000
  have hq25 : srgi_query1d [1, 2, 3, 4] [10, 100, 1000, 10000] .lin .log (5 / 2) true
      = Real.exp m := by
    rw [srgi_query1d_clip, hgrid]
    have hfwd : ScaleKind.lin.fwd (5 / 2) = 5 / 2 := rfl
    rw [hfwd, hlin25, log_bwd_of_large m (by linarith)]
    exact max_eq_left (by linarith)
  refine ⟨?_, ?_, ?_⟩
  · rw [hq2]
    norm_num
  · rw [hq25]
    exact hexp1
  · rw [hq25]
    exact hexp2

/-- Claim C8: the first forward call with a unit-bearing array records that
unit and transforms its bare magnitude; a subsequent forward call converts
its argument into the recorded unit before transforming; `inverse` re-wraps
its result in the recorded unit, or returns plain numbers when no unit was
ever recorded — so a forward-then-backward round trip on a unit-bearing
array yields a quantity in the original unit whose magnitude equals the
unit-stripped round trip. -/
theorem C8_unit_memoization (k : ScaleKind) (x u y x2 u2 : ℝ) :
    scale_call k none (.qty x u) = .ok (some u, k.fwd x) ∧
    scale_call k (some u) (.qty x2 u2) = .ok (some u, k.fwd (x2 * (u2 / u))) ∧
    scale_inverse_call k (some u) y = .qty (k.bwd y) u ∧
    scale_inverse_call k none y = .plain (k.bwd y) ∧
    scale_inverse_call k (some u) (k.fwd x) = .qty (k.bwd (k.fwd x)) u :=
  ⟨rfl, rfl, rfl, rfl, rfl⟩

/-- Witness for C8: the unit protocol evaluated at magnitude `5` carrying
unit factor `7` under the linear scale. -/
theorem C8_unit_memoization_witness :
    scale_call .lin none (.qty 5 7) = .ok (some 7, ScaleKind.lin.fwd 5) :=
  (C8_unit_memoization .lin 5 7 0 0 0).1

/-- Claim C9: in axis mode, neither the `extrapolate` flag nor construction
engine options are forwarded to the 1-D interpolator, and neither the
`method` argument nor query engine options are forwarded at query time: the
result depends only on the grid, the query coordinate and `clip`. -/
theorem C9_axis_mode_ignores_options (pts vals : List ℝ) (psc vsc : ScaleKind)
    (e e2 : Bool) (kw kw2 : EngineKwargs) (ax : Nat) (q : ℝ)
    (m m2 : String) (qkw qkw2 : EngineKwargs) (clip : Bool) :
    call_axis (mk_axis pts vals psc vsc e kw ax) q m qkw clip =
      call_axis (mk_axis pts vals psc vsc e2 kw2 ax) q m2 qkw2 clip := rfl

/-- Witness for C9: a concrete axis-mode query is unchanged when `method`
and all engine options differ. -/
theorem C9_axis_mode_ignores_options_witness :
    call_axis (mk_axis [1, 2] [3, 4] .lin .lin true {} 0) 1 "linear" {} true =
      call_axis (mk_axis [1, 2] [3, 4] .lin .lin false
        { bounds_error := some true, fill_value := some FillValue.nanDefault } 0)
        1 "nearest" { bounds_error := some false, fill_value := none } true :=
  C9_axis_mode_ignores_options [1, 2] [3, 4] .lin .lin true false {}
    { bounds_error := some true, fill_value := some FillValue.nanDefault } 0 1
    "linear" "nearest" {} { bounds_error := some false, fill_value := none } true

/-- Claim C10: `SqrtScale._inverse` squares its argument, so it is
nonnegative for every real input; hence an interpolator with a sqrt value
scale returns only nonnegative values on every query even with
`clip=False` — both through the N-D path and the axis-mode path. -/
theorem C10_sqrt_inverse_nonneg (y : ℝ) (raw : List ℝ) :
    0 ≤ SqrtScale.inverseFn y ∧
    (∀ v ∈ SRGI_call .sqrt raw false, 0 ≤ v) ∧
    (∀ (pts vals : List ℝ) (psc : ScaleKind) (e : Bool) (kw : EngineKwargs)
      (ax : Nat) (q : ℝ) (meth : String) (qkw : EngineKwargs),
      0 ≤ call_axis (mk_axis pts vals psc .sqrt e kw ax) q meth qkw false) ∧
    (∀ (pts vals : List ℝ) (psc : ScaleKind) (x : ℝ),
      0 ≤ srgi_query1d pts vals psc .sqrt x false) := by
  refine ⟨sq_nonneg y, ?_, ?_, ?_⟩
  · intro v hv
    unfold SRGI_call scale_inverse_list at hv
    rw [if_neg (by simp)] at hv
    obtain ⟨z, _, rfl⟩ := List.mem_map.mp hv
    exact sq_nonneg z
  · intro pts vals psc e kw ax q meth qkw
    unfold call_axis
    rw [if_neg (by simp)]
    exact sq_nonneg _
  · intro pts vals psc x
    rw [srgi_query1d_noclip]
    exact sq_nonneg _

/-- Witness for C10: a raw interpolated value of `-2` under the sqrt value
scale back-transforms to `4 ≥ 0` even with `clip=False`. -/
theorem C10_sqrt_inverse_nonneg_witness :
    (0 : ℝ) ≤ SqrtScale.inverseFn (-3) ∧ (0 : ℝ) ≤ 4 :=
  ⟨(C10_sqrt_inverse_nonneg (-3) [-2]).1,
   (C10_sqrt_inverse_nonneg (-3) [-2]).2.1 4
     (by
       show (4 : ℝ) ∈ SRGI_call .sqrt [-2] false
       unfold SRGI_call scale_inverse_list
       rw [if_neg (by simp)]
       show (4 : ℝ) ∈ [SqrtScale.inverseFn (-2)]
       unfold SqrtScale.inverseFn
       norm_num)⟩

end Gammapy
